import Mathlib

/-!
Verification of the origin e2e disruption/monitoring harness.

This file shallowly embeds the Go code of
  test/extended/util/disruption/disruption.go,
  test/e2e/upgrade/service/service.go, and
  pkg/monitor/monitorapi/identification.go
into Lean 4 and proves the behavioural properties stated in the spec.

Modelling conventions:
- Go `time.Duration` and `time.Time` are modelled as `Int` nanoseconds.
- Go `float64` arithmetic (the `percent := float64(duration)/float64(total)`
  computation) is modelled as exact rational arithmetic over `ℚ`.
- Go strings are modelled as `String` where only equality matters, and as
  `List Char` (sequences of runes) where character-level processing matters.
-/

namespace Origin

/-! ## Data model: monitor intervals and framework state -/

/-- Severity level of a monitor condition, from pkg/monitor/monitorapi. -/
inductive Level where
  | info
  | warning
  | error
deriving DecidableEq, Repr

/-- Monitor interval: a condition that held over the time range
[fromNS, toNS] (nanosecond timestamps), from monitorapi. The Go fields
are named From and To; `from` is reserved in Lean so we suffix with NS. -/
structure Interval where
  level : Level
  locator : String
  message : String
  fromNS : Int
  toNS : Int
deriving DecidableEq, Repr

/-- One second in nanoseconds (Go `time.Second`). -/
def second : Int := 1000000000

/-- Modelled from the spec: `monitorapi.Intervals.Duration` is called by
`ExpectNoDisruption` as `events.Duration(0, 1*time.Second)` but its body is
not under src/. The spec says: "compute duration = sum of interval lengths
(durations below a 1-second floor are treated as zero, to avoid
over-counting jitter)". We model the floor argument explicitly; an interval
whose length is below `floor` contributes zero to the sum. -/
def intervalsDuration (events : List Interval) (floor : Int) : Int :=
  events.foldl
    (fun acc e =>
      acc + (if e.toNS - e.fromNS < floor then 0 else e.toNS - e.fromNS)) 0

/-- Test summaries accumulated on a `framework.Framework`, from
disruption.go: `flakeSummary` (a string), `additionalEvents` (a list of
monitor intervals) and `additionalTest` (name, failure and duration). -/
inductive TestSummary where
  | flakeSummary (msg : String)
  | additionalEvents (events : List Interval)
  | additionalTest (name : String) (failure : String) (durationNS : Int)
deriving DecidableEq, Repr

/-- The slice of `framework.Framework` state the disruption code touches:
its accumulated TestSummaries list. -/
structure Framework where
  testSummaries : List TestSummary
deriving DecidableEq, Repr

/-- FrameworkEventIntervals from disruption.go: appends an
additionalEvents summary holding the events to f.TestSummaries. -/
def FrameworkEventIntervals (f : Framework) (events : List Interval) : Framework :=
  { f with testSummaries := f.testSummaries ++ [.additionalEvents events] }

/-- FrameworkFlakef from disruption.go: logs and appends a flakeSummary
with the formatted message to f.TestSummaries. -/
def FrameworkFlakef (f : Framework) (msg : String) : Framework :=
  { f with testSummaries := f.testSummaries ++ [.flakeSummary msg] }

/-- Go `Duration.Truncate(time.Second)`: rounds toward zero to a multiple
of a second. Durations here are non-negative, where `Int.tdiv` agrees with
Go integer division. -/
def goTruncateSecond (d : Int) : Int := (d.tdiv second) * second

/-- The data interpolated into the failure/flake message of
`ExpectNoDisruption` (the arguments of its format string): the reason, the
duration and total truncated to seconds, the percent and tolerated percent
(times 100, as printed with %0.0f), and the human-readable dump of every
interval (`events.Strings()`; we carry the intervals themselves since
Strings is defined outside src/). -/
structure DisruptionMessage where
  reason : String
  durationTruncated : Int
  totalTruncated : Int
  percentTimes100 : ℚ
  tolerateTimes100 : ℚ
  dump : List Interval
deriving DecidableEq, Repr

/-- The observable outcome of an `ExpectNoDisruption` call: a hard test
failure (framework.Failf), a recorded flake (FrameworkFlakef), or nothing. -/
inductive DisruptionOutcome where
  | failTest (msg : DisruptionMessage)
  | flake (msg : DisruptionMessage)
  | noop
deriving DecidableEq, Repr

/-- Rendering of a rational for message text (Go prints %0.0f on float64;
we render exactly as num/den, which preserves all message data). -/
def ratString (q : ℚ) : String := toString q.num ++ "/" ++ toString q.den

/-- Modelled rendering of one interval for the message dump
(`monitorapi.EventInterval.String()` lives outside src/); it lists locator,
message and the time range. -/
def intervalString (i : Interval) : String :=
  i.locator ++ " " ++ i.message ++ " [" ++ toString i.fromNS ++ "," ++ toString i.toNS ++ "]"

/-- Rendering of the disruption flake/failure message data, modelling the
fmt.Sprintf in ExpectNoDisruption: the message lists the reason, the
truncated duration and total, the percent figures, and a dump of every
interval. -/
def disruptionMessageString (m : DisruptionMessage) : String :=
  m.reason ++ " for at least " ++ toString m.durationTruncated ++ " of "
    ++ toString m.totalTruncated ++ " (" ++ ratString m.percentTimes100
    ++ "%, tolerated " ++ ratString m.tolerateTimes100 ++ "%):\n\n"
    ++ String.intercalate "\n" (m.dump.map intervalString)

/-- ExpectNoDisruption from disruption.go. It first appends the event
intervals to the framework summaries (FrameworkEventIntervals), computes
the floored duration `events.Duration(0, 1*time.Second)` and
`percent := float64(duration) / float64(total)` (modelled exactly over ℚ),
then fails if `percent > tolerate`, else records a flake if `duration > 0`,
else does nothing further. Returns the updated framework state and the
outcome. -/
def ExpectNoDisruption (f : Framework) (tolerate : ℚ) (total : Int)
    (events : List Interval) (reason : String) : Framework × DisruptionOutcome :=
  let f1 := FrameworkEventIntervals f events
  let duration := intervalsDuration events second
  let percent : ℚ := (duration : ℚ) / (total : ℚ)
  let msg : DisruptionMessage :=
    { reason := reason
      durationTruncated := goTruncateSecond duration
      totalTruncated := goTruncateSecond total
      percentTimes100 := percent * 100
      tolerateTimes100 := tolerate * 100
      dump := events }
  if percent > tolerate then
    (f1, .failTest msg)
  else if duration > 0 then
    (FrameworkFlakef f1 (disruptionMessageString msg), .flake msg)
  else
    (f1, .noop)

/-! ## Sampler probe function (test/e2e/upgrade/service/service.go) -/

/-- Connection type distinguished by the two monitoring clients in
startEndpointMonitoring: reused connections and new connections. -/
inductive ConnectionType where
  | reused
  | new
deriving DecidableEq, Repr

/-- Messages attached to the conditions the probe closures emit. The
constructors mirror monitor.DisruptionEndedMessage,
monitor.DisruptionBeganMessage and monitor.DisruptionContinuingMessage
(whose bodies live outside src/; the claims only inspect which of them a
condition carries). -/
inductive CondMessage where
  | disruptionEnded (locator : String) (connType : ConnectionType)
  | disruptionBegan (locator : String) (connType : ConnectionType) (err : String)
  | disruptionContinuing (locator : String) (connType : ConnectionType) (err : String)
deriving DecidableEq, Repr

/-- A monitorapi.Condition as produced by the probe closures: a level, a
locator and a message. -/
structure Condition where
  level : Level
  locator : String
  message : CondMessage
deriving DecidableEq, Repr

/-- The probe closure passed to monitor.NewSampler in
startEndpointMonitoring (both the reused-connection and new-connection
closures have the same switch structure). The HTTP GET plus body check is
summarised by `probeErr`: `none` when the request succeeded with the
expected body, `some e` when it failed with error text `e`. The switch:
success while previously down emits an "ended" Info condition; failure
while previously up emits a "began" Error condition; otherwise no
condition. Returns the optional condition and the new up/down state
`err == nil`. -/
def sampleProbe (locator : String) (ct : ConnectionType) (previous : Bool)
    (probeErr : Option String) : Option Condition × Bool :=
  match probeErr with
  | none =>
    if !previous then
      (some { level := .info, locator := locator,
              message := .disruptionEnded locator ct }, true)
    else
      (none, true)
  | some e =>
    if previous then
      (some { level := .error, locator := locator,
              message := .disruptionBegan locator ct e }, false)
    else
      (none, false)

/-- Runs the probe closure over a sequence of probe results, threading the
up/down state exactly as the sampler does (the sampler feeds each returned
`next` back as the next call's `previous`), and collects every emitted
condition in order. -/
def runSampler (locator : String) (ct : ConnectionType) (previous : Bool) :
    List (Option String) → List Condition
  | [] => []
  | e :: rest =>
    let step := sampleProbe locator ct previous e
    (match step.1 with
     | some c => [c]
     | none => []) ++ runSampler locator ct step.2 rest

/-- Predicate: the condition carries a disruptionBegan message. -/
def isBeganCond (c : Condition) : Bool :=
  match c.message with
  | .disruptionBegan _ _ _ => true
  | _ => false

/-- Predicate: the condition carries a disruptionEnded message. -/
def isEndedCond (c : Condition) : Bool :=
  match c.message with
  | .disruptionEnded _ _ => true
  | _ => false

/-- Number of Up→Down transitions in a probe-result sequence started in
state `previous`: positions where the previous state is up and the current
probe fails. -/
def downTransitions (previous : Bool) : List (Option String) → Nat
  | [] => 0
  | e :: rest =>
    (if previous && e.isSome then 1 else 0) + downTransitions e.isNone rest

/-- Number of Down→Up transitions in a probe-result sequence started in
state `previous`: positions where the previous state is down and the
current probe succeeds. -/
def upTransitions (previous : Bool) : List (Option String) → Nat
  | [] => 0
  | e :: rest =>
    (if !previous && e.isNone then 1 else 0) + upTransitions e.isNone rest

/-! ## JUnit report model (k8s.io/kubernetes/test/utils/junit as used by
disruption.go) -/

/-- A junit.Failure entry: message, type and value strings. -/
structure JunitFailure where
  message : String
  type : String
  value : String
deriving DecidableEq, Repr

/-- A junit.Error entry: message, type and value strings. -/
structure JunitError where
  message : String
  type : String
  value : String
deriving DecidableEq, Repr

/-- A junit.TestCase as manipulated by disruption.go: name, classname,
time in seconds (Go float64, modelled as ℚ), failures, errors and the
skipped string. -/
structure TestCase where
  name : String
  classname : String
  time : ℚ
  failures : List JunitFailure
  errors : List JunitError
  skipped : String
deriving DecidableEq, Repr

/-- The failure retyping done inside runChaosmonkey's finalize loop:
a failure whose Type is "Flake" has its Type set to "Failure"; other
failures are left alone. -/
def retypeFlakeFailure (f : JunitFailure) : JunitFailure :=
  if f.type = "Flake" then { f with type := "Failure" } else f

/-- The allFlakes flag computed by runChaosmonkey's finalize loop for one
test case. Go initialises it to
`len(Failures) > 0 && len(Errors) == 0 && len(Skipped) == 0` and then, for
each failure whose Type is not "Flake", sets it to false; we translate
that loop as a foldl over the failures. -/
def caseAllFlakes (tc : TestCase) : Bool :=
  tc.failures.foldl (fun b f => b && (f.type == "Flake"))
    (decide (0 < tc.failures.length) && decide (tc.errors.length = 0)
      && decide (tc.skipped.length = 0))

/-- The synthetic passing entry appended for an all-flakes test case: same
name, classname and time, and no failures, errors or skip. -/
def syntheticPass (tc : TestCase) : TestCase :=
  { name := tc.name
    classname := tc.classname
    time := tc.time
    failures := []
    errors := []
    skipped := "" }

/-- One iteration of runChaosmonkey's finalize loop on one test case: the
case's Flake failures are retyped to "Failure" in place, and if the
allFlakes flag held, a synthetic passing entry is produced to be appended
to the suite. -/
def processTestCase (tc : TestCase) : TestCase × Option TestCase :=
  ({ tc with failures := tc.failures.map retypeFlakeFailure },
   if caseAllFlakes tc then some (syntheticPass tc) else none)

/-- The whole finalize loop of runChaosmonkey over the suite's test cases.
The Go range loop iterates over the slice as it was when the loop started,
mutates each visited case in place and appends the synthetic entries at
the end of the slice; appended entries are not themselves visited. The
resulting list is therefore the processed originals in order followed by
the synthetic passing entries in order. -/
def updateFlakyTestCases (tcs : List TestCase) : List TestCase :=
  tcs.map (fun tc => (processTestCase tc).1)
    ++ tcs.filterMap (fun tc => (processTestCase tc).2)

/-! ## finalizeTest panic classification (disruption.go) -/

/-- The classes of value that finalizeTest's recover() can observe, from
its type switch: a ginkgowrapper.FailurePanic (message plus full stack
trace), an e2eskipper.SkipPanic (filename, line, message), or any other
panic value (rendered with %v). -/
inductive GoPanicValue where
  | failurePanic (message : String) (fullStackTrace : String)
  | skipPanic (filename : String) (line : Int) (message : String)
  | otherPanic (text : String)
deriving DecidableEq, Repr

/-- hasFrameworkFlake from disruption.go: returns the first flakeSummary
message recorded on the framework, if any. -/
def hasFrameworkFlake (f : Framework) : Option String :=
  f.testSummaries.findSome? fun s =>
    match s with
    | .flakeSummary m => some m
    | _ => none

/-! ## Go strconv.Quote / strconv.Unquote model

Go strings are modelled as rune sequences (`List Char`). The one
simplification is the printable-rune predicate: Go's strconv.IsPrint
consults the unicode tables, which we restrict to printable ASCII, so our
Quote conservatively escapes every non-ASCII rune with the \u / \U forms
that Go's Quote itself uses for non-printable runes; Unquote decodes both
a literal rune and its \u / \U escape to the same rune, so quoting and
unquoting behaviour is otherwise as in Go. -/

/-- Lower-case hex digit, as in Go's strconv lowerhex table. -/
def hexDigitChar (n : Nat) : Char :=
  if n < 10 then Char.ofNat (48 + n) else Char.ofNat (87 + n)

/-- Big-endian fixed-width hex rendering of the low `k` hex digits of a
value, as emitted by Go's \x, \u and \U escapes. -/
def hexEnc : Nat → Nat → List Char
  | 0, _ => []
  | k + 1, v => hexDigitChar (v / 16 ^ k % 16) :: hexEnc k v

/-- Value of one hex digit, as in Go's strconv unhex (accepts both
cases). -/
def hexVal (c : Char) : Option Nat :=
  if '0' ≤ c ∧ c ≤ '9' then some (c.toNat - 48)
  else if 'a' ≤ c ∧ c ≤ 'f' then some (c.toNat - 87)
  else if 'A' ≤ c ∧ c ≤ 'F' then some (c.toNat - 55)
  else none

/-- Reads exactly `k` hex digits from the front of a rune sequence,
accumulating their value, as Go's UnquoteChar does for \x, \u and \U. -/
def readHex : Nat → Nat → List Char → Option (Nat × List Char)
  | 0, acc, s => some (acc, s)
  | _ + 1, _, [] => none
  | k + 1, acc, c :: s =>
    match hexVal c with
    | some v => readHex k (acc * 16 + v) s
    | none => none

/-- Models strconv.IsPrint restricted to ASCII (see the section comment):
the printable ASCII range 0x20..0x7e. -/
def goIsPrint (c : Char) : Bool :=
  decide (0x20 ≤ c.toNat) && decide (c.toNat ≤ 0x7e)

/-- One rune's quoted form, from Go's appendEscapedRune with quote '"':
the quote character and backslash are backslash-escaped, printable runes
are emitted as-is, the seven named control escapes come next, and the
remaining runes are hex-escaped: \xHH below 0x20 and for 0x7f, \uHHHH
below 0x10000, and \UHHHHHHHH above. -/
def goQuoteChar (c : Char) : List Char :=
  if c = '"' ∨ c = '\\' then ['\\', c]
  else if goIsPrint c then [c]
  else if c = '\x07' then ['\\', 'a']
  else if c = '\x08' then ['\\', 'b']
  else if c = '\x0c' then ['\\', 'f']
  else if c = '\n' then ['\\', 'n']
  else if c = '\r' then ['\\', 'r']
  else if c = '\t' then ['\\', 't']
  else if c = '\x0b' then ['\\', 'v']
  else if c.toNat < 0x20 ∨ c.toNat = 0x7f then '\\' :: 'x' :: hexEnc 2 c.toNat
  else if c.toNat < 0x10000 then '\\' :: 'u' :: hexEnc 4 c.toNat
  else '\\' :: 'U' :: hexEnc 8 c.toNat

/-- Go strconv.Quote over runes: a double quote, each rune's quoted form,
and a closing double quote. -/
def goQuote (s : List Char) : List Char :=
  '"' :: (s.map goQuoteChar).flatten ++ ['"']

/-- Rune produced by a \u or \U escape: Go decodes the value and then
utf8.EncodeRune turns a surrogate into U+FFFD; values above MaxRune were
already rejected by UnquoteChar. -/
def runeFromEscape (v : Nat) : Char :=
  if v.isValidChar then Char.ofNat v else Char.ofNat 0xFFFD

/-- Go strconv.UnquoteChar with the given quote character, over runes:
a bare quote character is a syntax error, a rune that is not the escape
backslash is taken literally, and a backslash escape is decoded as in Go
(named controls, \x \u \U hex forms, three-digit octal, backslash, and
the quote character itself). Returns the decoded rune and the remaining
input. -/
def goUnquoteChar (q : Char) (s : List Char) : Option (Char × List Char) :=
  match s with
  | [] => none
  | c :: rest =>
    if c = q then none
    else if 0x80 ≤ c.toNat then some (c, rest)
    else if c ≠ '\\' then some (c, rest)
    else
      match rest with
      | [] => none
      | e :: rest2 =>
        if e = 'a' then some ('\x07', rest2)
        else if e = 'b' then some ('\x08', rest2)
        else if e = 'f' then some ('\x0c', rest2)
        else if e = 'n' then some ('\n', rest2)
        else if e = 'r' then some ('\r', rest2)
        else if e = 't' then some ('\t', rest2)
        else if e = 'v' then some ('\x0b', rest2)
        else if e = 'x' then
          match readHex 2 0 rest2 with
          | some (v, rest3) => some (Char.ofNat v, rest3)
          | none => none
        else if e = 'u' then
          match readHex 4 0 rest2 with
          | some (v, rest3) => some (runeFromEscape v, rest3)
          | none => none
        else if e = 'U' then
          match readHex 8 0 rest2 with
          | some (v, rest3) =>
            if v ≤ 0x10FFFF then some (runeFromEscape v, rest3) else none
          | none => none
        else if '0' ≤ e ∧ e ≤ '7' then
          match rest2 with
          | d1 :: d2 :: rest3 =>
            if ('0' ≤ d1 ∧ d1 ≤ '7') ∧ ('0' ≤ d2 ∧ d2 ≤ '7') then
              let v := (e.toNat - 48) * 64 + (d1.toNat - 48) * 8 + (d2.toNat - 48)
              if v ≤ 255 then some (Char.ofNat v, rest3) else none
            else none
          | _ => none
        else if e = '\\' then some ('\\', rest2)
        else if e = Char.ofNat 39 ∨ e = '"' then
          if e = q then some (e, rest2) else none
        else none

/-- Repeatedly applies goUnquoteChar until the input is exhausted, as the
loop in Go's Unquote does. Recursion is by explicit fuel; each successful
goUnquoteChar consumes at least one rune, so fuel equal to the input
length (as supplied by goUnquote) always suffices. -/
def goUnquoteLoop (q : Char) : Nat → List Char → Option (List Char)
  | _, [] => some []
  | 0, _ :: _ => none
  | fuel + 1, c :: s =>
    match goUnquoteChar q (c :: s) with
    | none => none
    | some (r, rest) =>
      match goUnquoteLoop q fuel rest with
      | none => none
      | some out => some (r :: out)

/-- Go strconv.Unquote over runes (Go 1.17 layout): the input must be at
least two runes with equal first and last quote runes, which are
stripped; a backquoted body must not contain a backquote and has its
carriage returns removed; otherwise the quote must be a double or single
quote and the body must not contain a raw newline; a single-quoted body
must decode to exactly one rune; a double-quoted body is decoded by the
UnquoteChar loop. -/
def goUnquote : List Char → Option (List Char)
  | [] => none
  | q :: rest =>
    if (q :: rest).length < 2 then none
    else if (q :: rest).getLast? ≠ some q then none
    else if q = Char.ofNat 96 then
      if rest.dropLast.contains (Char.ofNat 96) then none
      else some (rest.dropLast.filter (fun c => c ≠ '\r'))
    else if q ≠ '"' ∧ q ≠ Char.ofNat 39 then none
    else if rest.dropLast.contains '\n' then none
    else if q = Char.ofNat 39 then
      match goUnquoteChar q rest.dropLast with
      | some (c, []) => some [c]
      | _ => none
    else goUnquoteLoop q rest.dropLast.length rest.dropLast

/-- String-level wrapper of the Quote model, for Go's %q verb. -/
def goQuoteS (s : String) : String := String.mk (goQuote s.toList)

/-- The recovered-panic handling of finalizeTest on the junit test case
(the type switch after recover()): no panic leaves the case alone except
that a recorded framework flake message is appended as a "Flake"-typed
failure; a ginkgowrapper.FailurePanic replaces the failure list with one
"Failure"-typed entry carrying its message and message+stack value; an
e2eskipper.SkipPanic sets the skipped field to `file:line "message"`; any
other panic value replaces the error list with one "Panic"-typed entry
carrying its rendering and rendering+current stack. -/
def finalizeTestCase (r : Option GoPanicValue) (f : Framework) (stack : String)
    (tc : TestCase) : TestCase :=
  match r with
  | none =>
    match hasFrameworkFlake f with
    | some message =>
      { tc with failures := tc.failures
          ++ [{ message := message, type := "Flake", value := message }] }
    | none => tc
  | some (.failurePanic message fullStackTrace) =>
    { tc with failures :=
        [{ message := message, type := "Failure",
           value := message ++ "\n\n" ++ fullStackTrace }] }
  | some (.skipPanic filename line message) =>
    { tc with skipped :=
        filename ++ ":" ++ toString line ++ " " ++ goQuoteS message }
  | some (.otherPanic text) =>
    { tc with errors :=
        [{ message := text, type := "Panic", value := text ++ "\n\n" ++ stack }] }

/-! ## Report-file writing control flow (runChaosmonkey and finalizeTest) -/

/-- Observable effect of one report-writing step: whether an error text
was logged, whether the step escalated (failed or aborted the test run),
and whether the file contents were written. -/
structure WriteOutcome where
  logged : Bool
  escalated : Bool
  fileWritten : Bool
deriving DecidableEq, Repr

/-- Control flow of the JUnit XML write at the end of runChaosmonkey's
deferred finalize function: nothing happens when ReportDir is empty; when
os.Create fails the function just returns (no log, no escalation); when
it succeeds the suite is encoded into the file (the encoder's own error
value is discarded). `createFails` injects the os.Create error. -/
def writeJUnitReport (reportDir : String) (createFails : Bool) : WriteOutcome :=
  if reportDir = "" then { logged := false, escalated := false, fileWritten := false }
  else if createFails then { logged := false, escalated := false, fileWritten := false }
  else { logged := false, escalated := false, fileWritten := true }

/-- Control flow of writing one non-additionalTest summary JSON file in
finalizeTest: when ioutil.WriteFile fails the error is printed to stderr
and the loop continues; nothing ever escalates. `writeFails` injects the
WriteFile error. -/
def writeSummaryFile (writeFails : Bool) : WriteOutcome :=
  if writeFails then { logged := true, escalated := false, fileWritten := false }
  else { logged := false, escalated := false, fileWritten := true }

/-! ## Locator construction and parsing (pkg/monitor/monitorapi/identification.go) -/

/-- E2ETestLocator: fmt.Sprintf("e2e-test/%q", testName), i.e. the fixed
head followed by the quoted test name. -/
def E2ETestLocator (testName : List Char) : List Char :=
  "e2e-test/".toList ++ goQuote testName

/-- The part of the locator after the first '/': strings.SplitN(locator,
"/", 2) produces two parts when a slash is present, and E2ETestFromLocator
reads parts[1]. Returns none when the string has no slash. -/
def afterFirstSlash : List Char → Option (List Char)
  | [] => none
  | c :: rest => if c = '/' then some rest else afterFirstSlash rest

/-- E2ETestFromLocator: requires the "e2e-test/" head, takes the part
after the first slash, and unquotes it; any failure yields ("", false). -/
def E2ETestFromLocator (locator : List Char) : List Char × Bool :=
  if "e2e-test/".toList.isPrefixOf locator then
    match afterFirstSlash locator with
    | some quoted =>
      match goUnquote quoted with
      | some testName => (testName, true)
      | none => ([], false)
    | none => ([], false)
  else ([], false)

/-- IsE2ETest: true when E2ETestFromLocator succeeds. -/
def IsE2ETest (locator : List Char) : Bool :=
  (E2ETestFromLocator locator).2

/-! ## filesystemSafeName (disruption.go) -/

/-- Matches the regexp character class [a-zA-Z1-9_] complemented by
reFilesystemSafe (note: the digit 0 is not in the class). -/
def isFilesystemSafeChar (c : Char) : Bool :=
  decide (('a' ≤ c ∧ c ≤ 'z') ∨ ('A' ≤ c ∧ c ≤ 'Z') ∨ ('1' ≤ c ∧ c ≤ '9') ∨ c = '_')

/-- reFilesystemSafe.ReplaceAllString(s, "_"): every rune outside the
class is replaced by an underscore. -/
def replaceUnsafe (s : List Char) : List Char :=
  s.map (fun c => if isFilesystemSafeChar c then c else '_')

/-- reFilesystemDuplicate.ReplaceAllString(s, "_"): each maximal run of
one or more underscores becomes a single underscore. We keep the last
underscore of each run: two adjacent underscores drop the first, which
yields exactly the regexp's run collapsing. -/
def collapseUnderscores : List Char → List Char
  | [] => []
  | [c] => [c]
  | a :: b :: rest =>
    if a = '_' ∧ b = '_' then collapseUnderscores (b :: rest)
    else a :: collapseUnderscores (b :: rest)

/-- filesystemSafeName from disruption.go: replace unsafe runes by
underscores, then collapse underscore runs. -/
def filesystemSafeName (s : List Char) : List Char :=
  collapseUnderscores (replaceUnsafe s)

/-- Adjacent-pair check: no two consecutive underscores in the string. -/
def noDoubleUnderscore : List Char → Bool
  | a :: b :: rest => !(a = '_' && b = '_') && noDoubleUnderscore (b :: rest)
  | _ => true

/-! ## Theorems -/

/-- When every interval is below the floor, the folded duration sum stays
at its accumulator. -/
theorem duration_foldl_acc (floor : Int) (events : List Interval) :
    ∀ acc : Int,
      (∀ e ∈ events, e.toNS - e.fromNS < floor) →
      events.foldl
        (fun a e => a + (if e.toNS - e.fromNS < floor then 0 else e.toNS - e.fromNS))
        acc = acc := by
  induction events with
  | nil => intro acc _; rfl
  | cons e rest ih =>
    intro acc h
    simp only [List.foldl_cons]
    rw [if_pos (h e (List.mem_cons_self e rest))]
    simpa using ih acc (fun x hx => h x (List.mem_cons_of_mem _ hx))

/-- A set of sub-floor intervals has zero summed duration. -/
theorem intervalsDuration_zero_of_short (floor : Int) (events : List Interval)
    (h : ∀ e ∈ events, e.toNS - e.fromNS < floor) :
    intervalsDuration events floor = 0 :=
  duration_foldl_acc floor events 0 h

/-- C1: ExpectNoDisruption fails the test iff the floored disruption
duration divided by the total window exceeds the tolerate fraction; when
the duration is positive but within tolerance it instead records a flake
through FrameworkFlakef (visible in the framework summaries); and the
failure message carries the reason, the truncated duration and total, the
percent figures, and a dump of every interval. -/
theorem expectNoDisruption_fail_iff_flake_within_tolerance
    (f : Framework) (tolerate : ℚ) (total : Int) (events : List Interval)
    (reason : String) :
    ((∃ m, (ExpectNoDisruption f tolerate total events reason).2
        = DisruptionOutcome.failTest m)
      ↔ ((intervalsDuration events second : ℚ) / (total : ℚ) > tolerate))
    ∧ (0 < intervalsDuration events second →
        (intervalsDuration events second : ℚ) / (total : ℚ) ≤ tolerate →
        ∃ m, (ExpectNoDisruption f tolerate total events reason).2
            = DisruptionOutcome.flake m
          ∧ (ExpectNoDisruption f tolerate total events reason).1.testSummaries
              = f.testSummaries ++ [TestSummary.additionalEvents events,
                  TestSummary.flakeSummary (disruptionMessageString m)])
    ∧ (∀ m, (ExpectNoDisruption f tolerate total events reason).2
          = DisruptionOutcome.failTest m →
        m.reason = reason
        ∧ m.durationTruncated = goTruncateSecond (intervalsDuration events second)
        ∧ m.totalTruncated = goTruncateSecond total
        ∧ m.percentTimes100
            = (intervalsDuration events second : ℚ) / (total : ℚ) * 100
        ∧ m.tolerateTimes100 = tolerate * 100
        ∧ m.dump = events) := by
  by_cases h1 : (intervalsDuration events second : ℚ) / (total : ℚ) > tolerate
  · refine ⟨⟨fun _ => h1,
      fun _ => ⟨{ reason := reason
                  durationTruncated := goTruncateSecond (intervalsDuration events second)
                  totalTruncated := goTruncateSecond total
                  percentTimes100 := (intervalsDuration events second : ℚ) / (total : ℚ) * 100
                  tolerateTimes100 := tolerate * 100
                  dump := events }, ?_⟩⟩,
      fun _ hle => absurd h1 (not_lt.mpr hle), fun m hm => ?_⟩
    · simp [ExpectNoDisruption, if_pos h1]
    · simp only [ExpectNoDisruption, if_pos h1] at hm
      injection hm with h
      subst h
      exact ⟨rfl, rfl, rfl, rfl, rfl, rfl⟩
  · by_cases h2 : 0 < intervalsDuration events second
    · refine ⟨⟨fun hex => ?_, fun hgt => absurd hgt h1⟩,
        fun _ _ => ⟨{ reason := reason
                      durationTruncated := goTruncateSecond (intervalsDuration events second)
                      totalTruncated := goTruncateSecond total
                      percentTimes100 := (intervalsDuration events second : ℚ) / (total : ℚ) * 100
                      tolerateTimes100 := tolerate * 100
                      dump := events }, ?_, ?_⟩, fun m hm => ?_⟩
      · obtain ⟨m, hm⟩ := hex
        simp [ExpectNoDisruption, if_neg h1, if_pos h2] at hm
      · simp [ExpectNoDisruption, if_neg h1, if_pos h2]
      · simp [ExpectNoDisruption, if_neg h1, if_pos h2, FrameworkEventIntervals,
          FrameworkFlakef]
      · simp [ExpectNoDisruption, if_neg h1, if_pos h2] at hm
    · refine ⟨⟨fun hex => ?_, fun hgt => absurd hgt h1⟩,
        fun hpos _ => absurd hpos h2, fun m hm => ?_⟩
      · obtain ⟨m, hm⟩ := hex
        simp [ExpectNoDisruption, if_neg h1, if_neg h2] at hm
      · simp [ExpectNoDisruption, if_neg h1, if_neg h2] at hm

/-- C3: intervals all shorter than one second contribute nothing: the
computed duration is zero and ExpectNoDisruption (with a non-negative
tolerate fraction) does not fail the test — indeed it does nothing. -/
theorem expectNoDisruption_subsecond_noop
    (f : Framework) (tolerate : ℚ) (total : Int) (events : List Interval)
    (reason : String)
    (hshort : ∀ e ∈ events, e.toNS - e.fromNS < second)
    (htol : 0 ≤ tolerate) :
    intervalsDuration events second = 0
    ∧ (ExpectNoDisruption f tolerate total events reason).2
        = DisruptionOutcome.noop := by
  have hdur := intervalsDuration_zero_of_short second events hshort
  refine ⟨hdur, ?_⟩
  simp only [ExpectNoDisruption, hdur]
  rw [if_neg, if_neg]
  · simp
  · simp [not_lt.mpr htol]

/-- Witness for C3 on the spec's example: three intervals of 0.5s, 0.9s
and 0.3s over a 60s window with tolerate 0 produce duration 0 and no
failure. -/
theorem expectNoDisruption_subsecond_noop_witness :
    intervalsDuration
        [⟨Level.error, "l", "m", 0, 500000000⟩,
         ⟨Level.error, "l", "m", 1000000000, 1900000000⟩,
         ⟨Level.error, "l", "m", 3000000000, 3300000000⟩] second = 0
    ∧ (ExpectNoDisruption ⟨[]⟩ 0 60000000000
        [⟨Level.error, "l", "m", 0, 500000000⟩,
         ⟨Level.error, "l", "m", 1000000000, 1900000000⟩,
         ⟨Level.error, "l", "m", 3000000000, 3300000000⟩] "reason").2
        = DisruptionOutcome.noop :=
  expectNoDisruption_subsecond_noop ⟨[]⟩ 0 60000000000 _ "reason"
    (by decide) (by decide)

/-- C4 counterexample: with no events at all the floored duration is 0,
yet the ExpectNoDisruption call still mutates the framework state: the
unconditional FrameworkEventIntervals call appends an additionalEvents
summary, so the call is not free of side effects on the accumulated
test-summaries state. -/
theorem expectNoDisruption_zero_duration_still_appends :
    intervalsDuration ([] : List Interval) second = 0
    ∧ (ExpectNoDisruption ⟨[]⟩ 0 60000000000 [] "reason").1 ≠ (⟨[]⟩ : Framework) := by
  refine ⟨rfl, fun h => ?_⟩
  have h0 : ¬((intervalsDuration ([] : List Interval) second : ℚ)
      / ((60000000000 : Int) : ℚ) > 0) := by
    simp [intervalsDuration]
  have h1 : ¬(0 < intervalsDuration ([] : List Interval) second) := by decide
  simp [ExpectNoDisruption, if_neg h0, if_neg h1, FrameworkEventIntervals] at h

/-- C4 amended: when the floored duration is zero (and tolerate is
non-negative) the call neither fails nor records a flake — its only
side effect is the unconditional FrameworkEventIntervals append of the
event dump to the framework's test summaries. -/
theorem expectNoDisruption_zero_duration_only_event_append
    (f : Framework) (tolerate : ℚ) (total : Int) (events : List Interval)
    (reason : String)
    (hdur : intervalsDuration events second = 0)
    (htol : 0 ≤ tolerate) :
    (ExpectNoDisruption f tolerate total events reason).2 = DisruptionOutcome.noop
    ∧ (ExpectNoDisruption f tolerate total events reason).1.testSummaries
        = f.testSummaries ++ [TestSummary.additionalEvents events] := by
  simp only [ExpectNoDisruption, hdur]
  rw [if_neg, if_neg]
  · simp [FrameworkEventIntervals]
  · simp
  · simp [not_lt.mpr htol]

/-- Witness for the amended C4 at a concrete input. -/
theorem expectNoDisruption_zero_duration_only_event_append_witness :
    (ExpectNoDisruption ⟨[]⟩ 0 60000000000 [] "reason").2 = DisruptionOutcome.noop
    ∧ (ExpectNoDisruption ⟨[]⟩ 0 60000000000 [] "reason").1.testSummaries
        = [] ++ [TestSummary.additionalEvents []] :=
  expectNoDisruption_zero_duration_only_event_append ⟨[]⟩ 0 60000000000 [] "reason"
    (by decide) (by decide)

/-- Counting began-conditions over a sampler run matches the number of
Up→Down transitions of the probe-result sequence. -/
theorem runSampler_countBegan (locator : String) (ct : ConnectionType) :
    ∀ (results : List (Option String)) (prev : Bool),
      (runSampler locator ct prev results).countP (fun c => isBeganCond c)
        = downTransitions prev results := by
  intro results
  induction results with
  | nil => intro prev; rfl
  | cons e rest ih =>
    intro prev
    cases e with
    | none =>
      cases prev with
      | false =>
        simpa [runSampler, sampleProbe, downTransitions, List.countP_cons,
          isBeganCond] using ih true
      | true =>
        simpa [runSampler, sampleProbe, downTransitions] using ih true
    | some err =>
      cases prev with
      | false =>
        simpa [runSampler, sampleProbe, downTransitions] using ih false
      | true =>
        have h := ih false
        simp [runSampler, sampleProbe, downTransitions, List.countP_cons,
          isBeganCond] at h ⊢
        omega

/-- Counting ended-conditions over a sampler run matches the number of
Down→Up transitions of the probe-result sequence. -/
theorem runSampler_countEnded (locator : String) (ct : ConnectionType) :
    ∀ (results : List (Option String)) (prev : Bool),
      (runSampler locator ct prev results).countP (fun c => isEndedCond c)
        = upTransitions prev results := by
  intro results
  induction results with
  | nil => intro prev; rfl
  | cons e rest ih =>
    intro prev
    cases e with
    | none =>
      cases prev with
      | false =>
        have h := ih true
        simp [runSampler, sampleProbe, upTransitions, List.countP_cons,
          isEndedCond] at h ⊢
        omega
      | true =>
        simpa [runSampler, sampleProbe, upTransitions] using ih true
    | some err =>
      cases prev with
      | false =>
        simpa [runSampler, sampleProbe, upTransitions] using ih false
      | true =>
        simpa [runSampler, sampleProbe, upTransitions, List.countP_cons,
          isEndedCond] using ih false

/-- Every condition a sampler run emits is a began-condition with Error
level or an ended-condition with Info level. -/
theorem runSampler_condition_shape (locator : String) (ct : ConnectionType) :
    ∀ (results : List (Option String)) (prev : Bool) (c : Condition),
      c ∈ runSampler locator ct prev results →
      (isBeganCond c = true → c.level = Level.error)
      ∧ (isEndedCond c = true → c.level = Level.info)
      ∧ (isBeganCond c = true ∨ isEndedCond c = true) := by
  intro results
  induction results with
  | nil => intro prev c hc; cases hc
  | cons e rest ih =>
    intro prev c hc
    cases e with
    | none =>
      cases prev with
      | false =>
        have hc2 : c = ⟨Level.info, locator, CondMessage.disruptionEnded locator ct⟩
            ∨ c ∈ runSampler locator ct true rest := List.mem_cons.mp hc
        rcases hc2 with rfl | hc2
        · exact ⟨fun h => Bool.noConfusion h, fun _ => rfl, Or.inr rfl⟩
        · exact ih true c hc2
      | true => exact ih true c hc
    | some err =>
      cases prev with
      | false => exact ih false c hc
      | true =>
        have hc2 : c = ⟨Level.error, locator, CondMessage.disruptionBegan locator ct err⟩
            ∨ c ∈ runSampler locator ct false rest := List.mem_cons.mp hc
        rcases hc2 with rfl | hc2
        · exact ⟨fun _ => rfl, fun h => Bool.noConfusion h, Or.inl rfl⟩
        · exact ih false c hc2

/-- C2: over every probe-result sequence the sampler probe function emits
exactly one began (Error-level) condition per Up→Down transition and
exactly one ended (Info-level) condition per Down→Up transition, the
emitted conditions are nothing but those two kinds, and a probe step that
does not change the up/down state emits no condition; moreover the two
transition steps produce exactly the conditions described. -/
theorem sampler_one_condition_per_transition (locator : String) (ct : ConnectionType) :
    (∀ (prev : Bool) (results : List (Option String)),
      (runSampler locator ct prev results).countP (fun c => isBeganCond c)
        = downTransitions prev results)
    ∧ (∀ (prev : Bool) (results : List (Option String)),
      (runSampler locator ct prev results).countP (fun c => isEndedCond c)
        = upTransitions prev results)
    ∧ (∀ (prev : Bool) (results : List (Option String)) (c : Condition),
        c ∈ runSampler locator ct prev results →
        (isBeganCond c = true → c.level = Level.error)
        ∧ (isEndedCond c = true → c.level = Level.info)
        ∧ (isBeganCond c = true ∨ isEndedCond c = true))
    ∧ (∀ (prev : Bool) (e : Option String),
        (sampleProbe locator ct prev e).2 = prev →
        (sampleProbe locator ct prev e).1 = none)
    ∧ (∀ err : String, sampleProbe locator ct true (some err)
        = (some { level := Level.error, locator := locator,
                  message := CondMessage.disruptionBegan locator ct err }, false))
    ∧ (sampleProbe locator ct false none
        = (some { level := Level.info, locator := locator,
                  message := CondMessage.disruptionEnded locator ct }, true)) := by
  refine ⟨fun prev results => runSampler_countBegan locator ct results prev,
    fun prev results => runSampler_countEnded locator ct results prev,
    fun prev results c hc => runSampler_condition_shape locator ct results prev c hc,
    ?_, fun err => rfl, rfl⟩
  intro prev e h
  cases e <;> cases prev <;> simp_all [sampleProbe]

/-- Folding && over the failure list from any seed computes the seed
conjoined with the all-Flake check. -/
theorem foldl_and_flake (l : List JunitFailure) :
    ∀ b : Bool, l.foldl (fun b fl => b && (fl.type == "Flake")) b
      = (b && l.all (fun fl => fl.type == "Flake")) := by
  induction l with
  | nil => intro b; simp
  | cons fl rest ih =>
    intro b
    simp only [List.foldl_cons, List.all_cons, ih, Bool.and_assoc]

/-- The allFlakes flag of runChaosmonkey's finalize loop holds exactly
when the case has at least one failure, no errors, no skip, and every
failure is Flake-typed. -/
theorem caseAllFlakes_iff (tc : TestCase) :
    caseAllFlakes tc = true ↔
      tc.failures ≠ [] ∧ tc.errors = [] ∧ tc.skipped = ""
        ∧ ∀ fl ∈ tc.failures, fl.type = "Flake" := by
  unfold caseAllFlakes
  rw [foldl_and_flake]
  simp only [Bool.and_eq_true, decide_eq_true_eq, List.all_eq_true, beq_iff_eq]
  constructor
  · rintro ⟨⟨⟨h1, h2⟩, h3⟩, h4⟩
    refine ⟨List.ne_nil_of_length_pos h1, List.length_eq_zero.mp h2, ?_, h4⟩
    cases hs : tc.skipped with
    | mk data =>
      rw [hs] at h3
      cases data with
      | nil => rfl
      | cons c cs => simp [String.length, List.length] at h3
  · rintro ⟨h1, h2, h3, h4⟩
    refine ⟨⟨⟨List.length_pos.mpr h1, by simp [h2]⟩, by simp [h3]⟩, h4⟩

/-- The number of synthetic passing entries produced equals the number of
all-Flake cases. -/
theorem length_filterMap_synthetic (l : List TestCase) :
    (l.filterMap (fun tc => (processTestCase tc).2)).length
      = l.countP (fun tc => caseAllFlakes tc) := by
  induction l with
  | nil => rfl
  | cons a l ih =>
    by_cases h : caseAllFlakes a
    · simp [processTestCase, h, List.countP_cons] at ih ⊢
      omega
    · simp [processTestCase, h, List.countP_cons] at ih ⊢
      exact ih

/-- C5: at suite finalize time a test case with a non-empty failure list,
no errors, no skip, and only Flake-typed failures contributes exactly two
entries to the finalized suite: the original case with every failure
retyped from Flake to Failure, and a synthetic passing case with the same
name, classname and time and no failures; a case not satisfying that
condition produces no synthetic entry; overall the suite length grows by
exactly the number of all-Flake cases. -/
theorem flaky_case_rewritten_and_duplicated (tcs : List TestCase) (tc : TestCase)
    (hmem : tc ∈ tcs)
    (hfail : tc.failures ≠ [])
    (herr : tc.errors = [])
    (hskip : tc.skipped = "")
    (hflake : ∀ fl ∈ tc.failures, fl.type = "Flake") :
    (processTestCase tc).1 ∈ updateFlakyTestCases tcs
    ∧ (processTestCase tc).1
        = { tc with failures := tc.failures.map retypeFlakeFailure }
    ∧ (∀ fl ∈ (processTestCase tc).1.failures, fl.type = "Failure")
    ∧ syntheticPass tc ∈ updateFlakyTestCases tcs
    ∧ (syntheticPass tc).name = tc.name
    ∧ (syntheticPass tc).classname = tc.classname
    ∧ (syntheticPass tc).time = tc.time
    ∧ (syntheticPass tc).failures = []
    ∧ (syntheticPass tc).errors = []
    ∧ (syntheticPass tc).skipped = ""
    ∧ (updateFlakyTestCases tcs).length
        = tcs.length + tcs.countP (fun x => caseAllFlakes x)
    ∧ (∀ tc2 : TestCase,
        (∃ fl ∈ tc2.failures, tc2.failures ≠ [] ∧ fl.type ≠ "Flake")
          ∨ tc2.errors ≠ [] ∨ tc2.skipped ≠ "" →
        (processTestCase tc2).2 = none) := by
  have hflaky : caseAllFlakes tc = true :=
    (caseAllFlakes_iff tc).mpr ⟨hfail, herr, hskip, hflake⟩
  refine ⟨?_, rfl, ?_, ?_, rfl, rfl, rfl, rfl, rfl, rfl, ?_, ?_⟩
  · exact List.mem_append_left _
      (List.mem_map_of_mem (fun x => (processTestCase x).1) hmem)
  · intro fl hfl
    simp only [processTestCase, List.mem_map] at hfl
    obtain ⟨fl0, hfl0, rfl⟩ := hfl
    simp [retypeFlakeFailure, hflake fl0 hfl0]
  · refine List.mem_append_right _ (List.mem_filterMap.mpr ⟨tc, hmem, ?_⟩)
    simp [processTestCase, hflaky]
  · simp [updateFlakyTestCases, length_filterMap_synthetic]
  · intro tc2 hbad
    have : caseAllFlakes tc2 = false := by
      rw [Bool.eq_false_iff]
      intro hall
      obtain ⟨h1, h2, h3, h4⟩ := (caseAllFlakes_iff tc2).mp hall
      rcases hbad with ⟨fl, hfl, _, hne⟩ | hbad | hbad
      · exact hne (h4 fl hfl)
      · exact hbad h2
      · exact hbad h3
    simp [processTestCase, this]

/-- Witness for C5 on a one-case suite whose single failure is
Flake-typed. -/
theorem flaky_case_rewritten_and_duplicated_witness :
    (processTestCase ⟨"t", "c", 1, [⟨"m", "Flake", "v"⟩], [], ""⟩).1
        ∈ updateFlakyTestCases [⟨"t", "c", 1, [⟨"m", "Flake", "v"⟩], [], ""⟩]
    ∧ syntheticPass ⟨"t", "c", 1, [⟨"m", "Flake", "v"⟩], [], ""⟩
        ∈ updateFlakyTestCases [⟨"t", "c", 1, [⟨"m", "Flake", "v"⟩], [], ""⟩] := by
  have h := flaky_case_rewritten_and_duplicated
    [⟨"t", "c", 1, [⟨"m", "Flake", "v"⟩], [], ""⟩]
    ⟨"t", "c", 1, [⟨"m", "Flake", "v"⟩], [], ""⟩
    (by simp) (by simp) rfl rfl (by simp)
  exact ⟨h.1, h.2.2.2.1⟩

/-- C6: finalizeTest converts a recovered panic into exactly one
corresponding report entry: a FailurePanic becomes the single
"Failure"-typed failure with its message and message+stack value, a
SkipPanic sets the skipped field to file, line and quoted message, and any
other panic value becomes the single "Panic"-typed error entry; with no
panic the error and skipped fields are untouched and the failure list
changes only by a possible framework-flake entry, never a panic-derived
one. -/
theorem finalizeTest_classifies_recovered_panics
    (f : Framework) (stack : String) (tc : TestCase) :
    (∀ message fullStackTrace,
      finalizeTestCase (some (GoPanicValue.failurePanic message fullStackTrace))
          f stack tc
        = { tc with failures := [⟨message, "Failure",
              message ++ "\n\n" ++ fullStackTrace⟩] })
    ∧ (∀ filename line message,
      finalizeTestCase (some (GoPanicValue.skipPanic filename line message))
          f stack tc
        = { tc with skipped := filename ++ ":" ++ toString line ++ " "
              ++ goQuoteS message })
    ∧ (∀ text,
      finalizeTestCase (some (GoPanicValue.otherPanic text)) f stack tc
        = { tc with errors := [⟨text, "Panic", text ++ "\n\n" ++ stack⟩] })
    ∧ ((finalizeTestCase none f stack tc).errors = tc.errors
        ∧ (finalizeTestCase none f stack tc).skipped = tc.skipped
        ∧ ((finalizeTestCase none f stack tc).failures = tc.failures
            ∨ ∃ m, hasFrameworkFlake f = some m
                ∧ (finalizeTestCase none f stack tc).failures
                    = tc.failures ++ [⟨m, "Flake", m⟩])) := by
  refine ⟨fun _ _ => rfl, fun _ _ _ => rfl, fun _ => rfl, ?_⟩
  cases hff : hasFrameworkFlake f with
  | none => simp [finalizeTestCase, hff]
  | some m =>
    refine ⟨?_, ?_, Or.inr ⟨m, rfl, ?_⟩⟩ <;> simp [finalizeTestCase, hff]

/-- C7 counterexample: when os.Create for the JUnit XML file fails,
runChaosmonkey's finalize function returns without logging anything, so
the claim that every report-write error is logged is false (the JSON
summary path does log). -/
theorem junit_create_error_not_logged :
    (writeJUnitReport "reportdir" true).logged = false
    ∧ (writeJUnitReport "reportdir" true).escalated = false := by
  exact ⟨rfl, rfl⟩

/-- C7 amended: report writing never escalates a write error (neither
path fails nor aborts the run), the summary JSON write error is logged,
but the JUnit XML create error is silently swallowed rather than logged. -/
theorem report_write_errors_never_escalate
    (reportDir : String) (createFails writeFails : Bool) :
    (writeJUnitReport reportDir createFails).escalated = false
    ∧ (writeSummaryFile writeFails).escalated = false
    ∧ (writeSummaryFile true).logged = true
    ∧ (writeJUnitReport reportDir true).logged = false := by
  refine ⟨?_, ?_, rfl, ?_⟩
  · unfold writeJUnitReport
    split_ifs <;> rfl
  · unfold writeSummaryFile
    split_ifs <;> rfl
  · unfold writeJUnitReport
    split_ifs <;> rfl

/-- Underscore collapsing only keeps characters of the input. -/
theorem collapse_subset : ∀ (l : List Char), ∀ c ∈ collapseUnderscores l, c ∈ l
  | [] => by simp [collapseUnderscores]
  | [a] => by simp [collapseUnderscores]
  | a :: b :: rest => by
    intro c hc
    rw [collapseUnderscores] at hc
    split_ifs at hc with h
    · exact List.mem_cons_of_mem a (collapse_subset (b :: rest) c hc)
    · rcases List.mem_cons.mp hc with rfl | hc
      · exact List.mem_cons_self _ _
      · exact List.mem_cons_of_mem a (collapse_subset (b :: rest) c hc)

/-- Underscore collapsing keeps the head of the string: a run of
underscores collapses to a single underscore, which is the head. -/
theorem collapse_head : ∀ (b : Char) (rest : List Char),
    (collapseUnderscores (b :: rest)).head? = some b
  | b, [] => by simp [collapseUnderscores]
  | b, c :: rest => by
    rw [collapseUnderscores]
    split_ifs with h
    · rw [collapse_head c rest, h.1, h.2]
    · simp

/-- Collapsed output has no two adjacent underscores. -/
theorem collapse_noDouble : ∀ l : List Char,
    noDoubleUnderscore (collapseUnderscores l) = true
  | [] => rfl
  | [_] => rfl
  | a :: b :: rest => by
    rw [collapseUnderscores]
    split_ifs with h
    · exact collapse_noDouble (b :: rest)
    · have hh := collapse_head b rest
      have hnd := collapse_noDouble (b :: rest)
      cases hcb : collapseUnderscores (b :: rest) with
      | nil => rfl
      | cons x t =>
        rw [hcb] at hh hnd
        have hx : x = b := by simpa using hh
        subst hx
        simp only [noDoubleUnderscore, hnd, Bool.and_true]
        rcases Decidable.em (a = '_') with ha | ha
        · have hb : ¬x = '_' := fun hb => h ⟨ha, hb⟩
          simp [ha, hb]
        · simp [ha]

/-- Collapsing is the identity on strings without adjacent underscores. -/
theorem collapse_of_noDouble : ∀ l : List Char,
    noDoubleUnderscore l = true → collapseUnderscores l = l
  | [], _ => rfl
  | [_], _ => rfl
  | a :: b :: rest, h => by
    have h1 : ¬(a = '_' ∧ b = '_') := by
      simp only [noDoubleUnderscore, Bool.and_eq_true, Bool.not_eq_true] at h
      intro hab
      simp [hab.1, hab.2] at h
    have h2 : noDoubleUnderscore (b :: rest) = true := by
      simp only [noDoubleUnderscore, Bool.and_eq_true] at h
      exact h.2
    rw [collapseUnderscores, if_neg h1, collapse_of_noDouble (b :: rest) h2]

/-- Every character of the replaced string is in the safe class. -/
theorem replaceUnsafe_safe (s : List Char) :
    ∀ c ∈ replaceUnsafe s, isFilesystemSafeChar c = true := by
  intro c hc
  simp only [replaceUnsafe, List.mem_map] at hc
  obtain ⟨c0, _, rfl⟩ := hc
  by_cases h : isFilesystemSafeChar c0 = true
  · rw [if_pos h]; exact h
  · rw [if_neg h]; decide

/-- Replacing is the identity on strings of safe characters. -/
theorem replaceUnsafe_of_safe (s : List Char)
    (h : ∀ c ∈ s, isFilesystemSafeChar c = true) : replaceUnsafe s = s := by
  unfold replaceUnsafe
  conv_rhs => rw [← List.map_id s]
  exact List.map_congr_left fun c hc => by simp [h c hc]

/-- C10: filesystemSafeName yields only characters of the class
[a-zA-Z1-9_] (the digit 0 is excluded and gets replaced), never two
adjacent underscores, and is idempotent. -/
theorem filesystemSafeName_class_noDouble_idempotent :
    (∀ (s : List Char), ∀ c ∈ filesystemSafeName s, isFilesystemSafeChar c = true)
    ∧ (∀ s : List Char, noDoubleUnderscore (filesystemSafeName s) = true)
    ∧ (∀ s : List Char, filesystemSafeName (filesystemSafeName s) = filesystemSafeName s)
    ∧ isFilesystemSafeChar '0' = false
    ∧ isFilesystemSafeChar '_' = true := by
  have hsafe : ∀ (s : List Char), ∀ c ∈ filesystemSafeName s,
      isFilesystemSafeChar c = true := by
    intro s c hc
    exact replaceUnsafe_safe s c (collapse_subset (replaceUnsafe s) c hc)
  have hnd : ∀ s : List Char, noDoubleUnderscore (filesystemSafeName s) = true :=
    fun s => collapse_noDouble (replaceUnsafe s)
  refine ⟨hsafe, hnd, fun s => ?_, by decide, by decide⟩
  show collapseUnderscores (replaceUnsafe (filesystemSafeName s)) = filesystemSafeName s
  rw [replaceUnsafe_of_safe _ (hsafe s)]
  exact collapse_of_noDouble _ (hnd s)

/-- Hex digit encoding and decoding are inverse below 16. -/
theorem hexVal_hexDigitChar (n : Nat) (h : n < 16) :
    hexVal (hexDigitChar n) = some n := by
  interval_cases n <;> decide

/-- Reading back a fixed-width hex rendering recovers the accumulated
value: the masked value is appended to the accumulator. -/
theorem readHex_hexEnc (k : Nat) :
    ∀ (acc v : Nat) (rest : List Char),
      readHex k acc (hexEnc k v ++ rest) = some (acc * 16 ^ k + v % 16 ^ k, rest) := by
  induction k with
  | zero =>
    intro acc v rest
    simp [hexEnc, readHex, Nat.mod_one]
  | succ k ih =>
    intro acc v rest
    have hd : v / 16 ^ k % 16 < 16 := Nat.mod_lt _ (by omega)
    simp only [hexEnc, List.cons_append, readHex,
      hexVal_hexDigitChar (v / 16 ^ k % 16) hd, List.append_eq]
    rw [ih (acc * 16 + v / 16 ^ k % 16) v rest]
    have hsplit : v % (16 ^ k * 16) = v % 16 ^ k + 16 ^ k * (v / 16 ^ k % 16) :=
      Nat.mod_mul
    have harith : (acc * 16 + v / 16 ^ k % 16) * 16 ^ k + v % 16 ^ k
        = acc * 16 ^ (k + 1) + v % 16 ^ (k + 1) := by
      rw [pow_succ, hsplit]
      ring
    rw [harith]

/-- Every Char value is a valid scalar value. -/
theorem char_toNat_isValidChar (c : Char) : c.toNat.isValidChar := c.valid

/-- Every Char value is below 0x110000. -/
theorem char_toNat_lt (c : Char) : c.toNat < 0x110000 := by
  rcases char_toNat_isValidChar c with h | h
  · omega
  · omega

/-- Unquoting inverts per-rune quoting: parsing the quoted form of a rune
from the front of the input yields that rune and the untouched rest. -/
theorem goUnquoteChar_goQuoteChar (c : Char) (rest : List Char) :
    goUnquoteChar '"' (goQuoteChar c ++ rest) = some (c, rest) := by
  by_cases h1 : c = '"' ∨ c = '\\'
  · rcases h1 with rfl | rfl <;> simp [goQuoteChar, goUnquoteChar]
  · rw [goQuoteChar, if_neg h1]
    have hne1 : ¬c = '"' := fun h => h1 (Or.inl h)
    have hne2 : ¬c = '\\' := fun h => h1 (Or.inr h)
    by_cases h2 : goIsPrint c = true
    · rw [if_pos h2]
      have hrange : 0x20 ≤ c.toNat ∧ c.toNat ≤ 0x7e := by
        simpa [goIsPrint] using h2
      have hlt : ¬(0x80 ≤ c.toNat) := by omega
      simp only [List.singleton_append, goUnquoteChar, if_neg hne1,
        if_neg hlt, ne_eq, hne2, not_false_eq_true, if_pos]
    · rw [if_neg h2]
      have hnp : ¬(0x20 ≤ c.toNat ∧ c.toNat ≤ 0x7e) := by
        simpa [goIsPrint] using h2
      by_cases h3 : c = '\x07'
      · subst h3; rw [if_pos rfl]; simp [goUnquoteChar]
      rw [if_neg h3]
      by_cases h4 : c = '\x08'
      · subst h4; rw [if_pos rfl]; simp [goUnquoteChar]
      rw [if_neg h4]
      by_cases h5 : c = '\x0c'
      · subst h5; rw [if_pos rfl]; simp [goUnquoteChar]
      rw [if_neg h5]
      by_cases h6 : c = '\n'
      · subst h6; rw [if_pos rfl]; simp [goUnquoteChar]
      rw [if_neg h6]
      by_cases h7 : c = '\r'
      · subst h7; rw [if_pos rfl]; simp [goUnquoteChar]
      rw [if_neg h7]
      by_cases h8 : c = '\t'
      · subst h8; rw [if_pos rfl]; simp [goUnquoteChar]
      rw [if_neg h8]
      by_cases h9 : c = '\x0b'
      · subst h9; rw [if_pos rfl]; simp [goUnquoteChar]
      rw [if_neg h9]
      by_cases h10 : c.toNat < 0x20 ∨ c.toNat = 0x7f
      · rw [if_pos h10]
        have hb : c.toNat % 256 = c.toNat := Nat.mod_eq_of_lt (by omega)
        simp [goUnquoteChar, readHex_hexEnc, hb, Char.ofNat_toNat]
      · rw [if_neg h10]
        have hvalid : (c.toNat).isValidChar := char_toNat_isValidChar c
        by_cases h11 : c.toNat < 0x10000
        · rw [if_pos h11]
          have hb : c.toNat % 65536 = c.toNat := Nat.mod_eq_of_lt (by omega)
          simp [goUnquoteChar, readHex_hexEnc, hb, runeFromEscape, hvalid,
            Char.ofNat_toNat]
        · rw [if_neg h11]
          have hv := char_toNat_lt c
          have hb : c.toNat % 4294967296 = c.toNat := Nat.mod_eq_of_lt (by omega)
          have hmax : c.toNat ≤ 1114111 := by omega
          simp [goUnquoteChar, readHex_hexEnc, hb, hmax, runeFromEscape, hvalid,
            Char.ofNat_toNat]

/-- Hex digits are never a newline. -/
theorem hexDigitChar_ne_newline (n : Nat) (h : n < 16) : hexDigitChar n ≠ '\n' := by
  interval_cases n <;> decide

/-- Hex renderings contain no newline. -/
theorem hexEnc_ne_newline (k : Nat) : ∀ (v : Nat), ∀ x ∈ hexEnc k v, x ≠ '\n' := by
  induction k with
  | zero => intro v x hx; cases hx
  | succ k ih =>
    intro v x hx
    rcases List.mem_cons.mp hx with rfl | hx
    · exact hexDigitChar_ne_newline _ (Nat.mod_lt _ (by omega))
    · exact ih v x hx

/-- A quoted rune never contains a raw newline (the newline itself is
escaped as backslash-n). -/
theorem goQuoteChar_ne_newline (c : Char) : ∀ x ∈ goQuoteChar c, x ≠ '\n' := by
  rw [goQuoteChar]
  by_cases h1 : c = '"' ∨ c = '\\'
  · rw [if_pos h1]
    rcases h1 with rfl | rfl <;> decide
  rw [if_neg h1]
  by_cases h2 : goIsPrint c = true
  · rw [if_pos h2]
    have hrange : 0x20 ≤ c.toNat ∧ c.toNat ≤ 0x7e := by simpa [goIsPrint] using h2
    intro x hx
    rcases List.mem_cons.mp hx with rfl | hx
    · intro hcn
      rw [hcn] at hrange
      revert hrange
      decide
    · cases hx
  rw [if_neg h2]
  by_cases h3 : c = '\x07'
  · rw [if_pos h3]; decide
  rw [if_neg h3]
  by_cases h4 : c = '\x08'
  · rw [if_pos h4]; decide
  rw [if_neg h4]
  by_cases h5 : c = '\x0c'
  · rw [if_pos h5]; decide
  rw [if_neg h5]
  by_cases h6 : c = '\n'
  · rw [if_pos h6]; decide
  rw [if_neg h6]
  by_cases h7 : c = '\r'
  · rw [if_pos h7]; decide
  rw [if_neg h7]
  by_cases h8 : c = '\t'
  · rw [if_pos h8]; decide
  rw [if_neg h8]
  by_cases h9 : c = '\x0b'
  · rw [if_pos h9]; decide
  rw [if_neg h9]
  by_cases h10 : c.toNat < 0x20 ∨ c.toNat = 0x7f
  · rw [if_pos h10]
    intro x hx
    rcases List.mem_cons.mp hx with rfl | hx
    · decide
    rcases List.mem_cons.mp hx with rfl | hx
    · decide
    exact hexEnc_ne_newline 2 c.toNat x hx
  rw [if_neg h10]
  by_cases h11 : c.toNat < 0x10000
  · rw [if_pos h11]
    intro x hx
    rcases List.mem_cons.mp hx with rfl | hx
    · decide
    rcases List.mem_cons.mp hx with rfl | hx
    · decide
    exact hexEnc_ne_newline 4 c.toNat x hx
  rw [if_neg h11]
  intro x hx
  rcases List.mem_cons.mp hx with rfl | hx
  · decide
  rcases List.mem_cons.mp hx with rfl | hx
  · decide
  exact hexEnc_ne_newline 8 c.toNat x hx

/-- The quoted body of a string contains no raw newline. -/
theorem flatten_quote_no_newline (s : List Char) :
    ((s.map goQuoteChar).flatten).contains '\n' = false := by
  have hmem : '\n' ∉ (s.map goQuoteChar).flatten := by
    intro hmem
    rw [List.mem_flatten] at hmem
    obtain ⟨l, hl, hx⟩ := hmem
    rw [List.mem_map] at hl
    obtain ⟨c, _, rfl⟩ := hl
    exact goQuoteChar_ne_newline c '\n' hx rfl
  simpa using hmem

/-- A quoted rune is never the empty string. -/
theorem goQuoteChar_ne_nil (c : Char) : goQuoteChar c ≠ [] := by
  rw [goQuoteChar]
  by_cases h1 : c = '"' ∨ c = '\\'
  · rw [if_pos h1]; exact List.cons_ne_nil _ _
  rw [if_neg h1]
  by_cases h2 : goIsPrint c = true
  · rw [if_pos h2]; exact List.cons_ne_nil _ _
  rw [if_neg h2]
  by_cases h3 : c = '\x07'
  · rw [if_pos h3]; exact List.cons_ne_nil _ _
  rw [if_neg h3]
  by_cases h4 : c = '\x08'
  · rw [if_pos h4]; exact List.cons_ne_nil _ _
  rw [if_neg h4]
  by_cases h5 : c = '\x0c'
  · rw [if_pos h5]; exact List.cons_ne_nil _ _
  rw [if_neg h5]
  by_cases h6 : c = '\n'
  · rw [if_pos h6]; exact List.cons_ne_nil _ _
  rw [if_neg h6]
  by_cases h7 : c = '\r'
  · rw [if_pos h7]; exact List.cons_ne_nil _ _
  rw [if_neg h7]
  by_cases h8 : c = '\t'
  · rw [if_pos h8]; exact List.cons_ne_nil _ _
  rw [if_neg h8]
  by_cases h9 : c = '\x0b'
  · rw [if_pos h9]; exact List.cons_ne_nil _ _
  rw [if_neg h9]
  by_cases h10 : c.toNat < 0x20 ∨ c.toNat = 0x7f
  · rw [if_pos h10]; exact List.cons_ne_nil _ _
  rw [if_neg h10]
  by_cases h11 : c.toNat < 0x10000
  · rw [if_pos h11]; exact List.cons_ne_nil _ _
  rw [if_neg h11]; exact List.cons_ne_nil _ _

/-- The unquote loop inverts quoting of a whole string when given enough
fuel (the body length suffices since every parse step consumes at least
one rune). -/
theorem goUnquoteLoop_flatten :
    ∀ (s : List Char) (fuel : Nat),
      ((s.map goQuoteChar).flatten).length ≤ fuel →
      goUnquoteLoop '"' fuel ((s.map goQuoteChar).flatten) = some s := by
  intro s
  induction s with
  | nil => intro fuel _; cases fuel <;> rfl
  | cons c s ih =>
    intro fuel hlen
    rw [List.map_cons, List.flatten_cons] at hlen ⊢
    obtain ⟨c0, t0, hct⟩ : ∃ c0 t0, goQuoteChar c = c0 :: t0 := by
      cases hqc : goQuoteChar c with
      | nil => exact absurd hqc (goQuoteChar_ne_nil c)
      | cons a b => exact ⟨a, b, rfl⟩
    cases fuel with
    | zero =>
      exfalso
      rw [hct] at hlen
      simp at hlen
    | succ fuel =>
      rw [hct, List.cons_append]
      simp only [goUnquoteLoop]
      rw [← List.cons_append, ← hct,
        goUnquoteChar_goQuoteChar c ((s.map goQuoteChar).flatten)]
      have hlen2 : ((s.map goQuoteChar).flatten).length ≤ fuel := by
        rw [hct] at hlen
        simp only [List.length_append, List.length_cons] at hlen
        omega
      simp only [ih fuel hlen2]

/-- Unquoting inverts quoting of a whole string (Go's
Unquote(Quote(s)) == s). -/
theorem goUnquote_goQuote (s : List Char) : goUnquote (goQuote s) = some s := by
  have hlast : (('"' :: (s.map goQuoteChar).flatten) ++ ['"']).getLast? = some '"' :=
    List.getLast?_concat _
  rw [goQuote, List.cons_append, goUnquote]
  rw [if_neg (by simp)]
  rw [if_neg (by
    rw [show ('"' :: ((s.map goQuoteChar).flatten ++ ['"']))
        = ('"' :: (s.map goQuoteChar).flatten) ++ ['"'] from
      (List.cons_append _ _ _).symm, hlast]
    simp)]
  rw [if_neg (by decide)]
  rw [if_neg (by decide)]
  rw [List.dropLast_concat]
  rw [if_neg (by rw [flatten_quote_no_newline]; exact Bool.false_ne_true)]
  rw [if_neg (by decide)]
  exact goUnquoteLoop_flatten s _ (Nat.le_refl _)

/-- A list is a prefix of itself followed by anything
(strings.HasPrefix(p ++ t, p) is true). -/
theorem isPrefixOf_append_self : ∀ (p t : List Char), p.isPrefixOf (p ++ t) = true
  | [], _ => by simp [List.isPrefixOf]
  | a :: p, t => by
    simp only [List.cons_append, List.isPrefixOf_cons₂_self]
    exact isPrefixOf_append_self p t

/-- Splitting after the first slash of an "e2e-test/"-headed locator
yields exactly the tail after the head (the head's only slash is its last
character). -/
theorem afterFirstSlash_e2e (t : List Char) :
    afterFirstSlash ("e2e-test/".toList ++ t) = some t := by
  show afterFirstSlash
    ('e' :: '2' :: 'e' :: '-' :: 't' :: 'e' :: 's' :: 't' :: '/' :: t) = some t
  rw [afterFirstSlash, if_neg (by decide)]
  rw [afterFirstSlash, if_neg (by decide)]
  rw [afterFirstSlash, if_neg (by decide)]
  rw [afterFirstSlash, if_neg (by decide)]
  rw [afterFirstSlash, if_neg (by decide)]
  rw [afterFirstSlash, if_neg (by decide)]
  rw [afterFirstSlash, if_neg (by decide)]
  rw [afterFirstSlash, if_neg (by decide)]
  rw [afterFirstSlash, if_pos rfl]

/-- Parsing an e2e-test locator built by the constructor recovers the
test name. -/
theorem e2eFromLocator_of_locator (n : List Char) :
    E2ETestFromLocator (E2ETestLocator n) = (n, true) := by
  unfold E2ETestLocator E2ETestFromLocator
  rw [if_pos (isPrefixOf_append_self _ _)]
  simp only [afterFirstSlash_e2e, goUnquote_goQuote]

/-- C9: the e2e-test locator constructors and parsers round-trip:
E2ETestFromLocator of E2ETestLocator(n) returns (n, true) and IsE2ETest
accepts it, for every test name; and E2ETestFromLocator returns ("",
false) for every string without the "e2e-test/" head as well as for every
string whose part after the first slash is not a valid Go quoted
string. -/
theorem e2e_locator_roundtrip :
    (∀ n : List Char, E2ETestFromLocator (E2ETestLocator n) = (n, true))
    ∧ (∀ n : List Char, IsE2ETest (E2ETestLocator n) = true)
    ∧ (∀ l : List Char, "e2e-test/".toList.isPrefixOf l = false →
        E2ETestFromLocator l = ([], false))
    ∧ (∀ t : List Char, goUnquote t = none →
        E2ETestFromLocator ("e2e-test/".toList ++ t) = ([], false)) := by
  refine ⟨e2eFromLocator_of_locator, ?_, ?_, ?_⟩
  · intro n
    unfold IsE2ETest
    rw [e2eFromLocator_of_locator]
  · intro l h
    unfold E2ETestFromLocator
    rw [if_neg (by rw [h]; exact Bool.false_ne_true)]
  · intro t h
    unfold E2ETestFromLocator
    rw [if_pos (isPrefixOf_append_self _ _)]
    simp only [afterFirstSlash_e2e, h]

end Origin
